import Mathlib

/-!
Verification of the lifecycle-scoped external-resource subscription manager
(`SubscriptionScope`) described by this repository: a primitive that keeps at
most one external event-handler registration per owner, re-evaluated against a
dependency snapshot, and released on disposal.  The repository's source files
(`src/src/App.js`, `src/unnamed/part_000`) exhibit the primitive as the React
`useEffect` + `addEventListener`/`removeEventListener` idiom:

  useEffect(() => {
    if (isActive) window.addEventListener("click", handleClick);
    return () => window.removeEventListener("click", handleClick);
  }, [isActive]);

The SubscriptionScope itself is not spelled out as a standalone module in the
repository; its contract (`evaluate` / `dispose`) is given in the specification
and instantiated by the effect bodies in the source.  The state machine below
is therefore modelled from the spec, with the effect bodies of the source as
its instances.  A second, independent model at the end of the file embeds the
no-cleanup variant (`src/unnamed/part_001`), whose effect registers a fresh
anonymous handler on `window` at every mount and never removes it.
-/

namespace SubScope

/-- External handler references.  Reference identity is what matters
(`removeEventListener` must be handed the same callback value as
`addEventListener`), so handlers are modelled as distinct tokens drawn from a
fresh-token supply: `handlerFactory` produces a brand-new token per Binding
establishment, as a fresh closure does in the source. -/
abbrev Ref := Nat

/-- A dependency value.  The spec treats snapshot contents as opaque values
used only for element-wise equality; the source's dependency arrays hold
booleans (`[isActive]`), so dependency values are modelled as `Bool`. -/
abbrev Dep := Bool

/-- Modelled from the spec: a Binding is the currently active registration —
`target` (external event source identifier), `eventName`, `handlerRef` (the
exact reference that was registered), together with the `DependencySnapshot`
captured when the Binding was established (`none` when the snapshot argument
was omitted, the re-evaluate-always mode). -/
structure Binding where
  target : String
  eventName : String
  handlerRef : Ref
  snapshot : Option (List Dep)
deriving DecidableEq

/-- Modelled from the spec: per-owner SubscriptionScope state — the current
Binding (or none) plus the fresh-reference supply standing in for
`handlerFactory`'s production of new callback values. -/
structure Scope where
  binding : Option Binding
  nextRef : Ref
deriving DecidableEq

/-- The scope of a freshly created owner: no Binding yet. -/
def scope0 : Scope := { binding := none, nextRef := 0 }

/-- Observable calls made by the Scope on its collaborators: `factoryCall r`
(an invocation of `handlerFactory` producing reference `r`),
`register t e r` (= `t.addEventListener(e, r)`) and `deregister t e r`
(= `t.removeEventListener(e, r)`). -/
inductive Event where
  | factoryCall (r : Ref)
  | register (target eventName : String) (r : Ref)
  | deregister (target eventName : String) (r : Ref)
deriving DecidableEq

def Event.isRegister : Event → Bool
  | .register _ _ _ => true
  | _ => false

def Event.isDeregister : Event → Bool
  | .deregister _ _ _ => true
  | _ => false

def Event.isFactoryCall : Event → Bool
  | .factoryCall _ => true
  | _ => false

/-- Element-wise snapshot equality: equal iff both snapshots are present, have
the same length and the same values in order.  An omitted snapshot (`none`)
never compares equal, matching the spec's re-evaluate-always mode. -/
def snapEq : Option (List Dep) → Option (List Dep) → Bool
  | some a, some b => decide (a = b)
  | _, _ => false

/-- Modelled from the spec, step 1 of `evaluate` (establishment): when the
registration condition holds, invoke `handlerFactory` once to obtain a fresh
reference, register it against `target`/`eventName` and store the new Binding
with the snapshot; the conditional-registration no-op branch (`cond = false`,
the source's `if (isActive)`) registers nothing and leaves no Binding. -/
def establish (tgt ev : String) (cond : Bool) (snap : Option (List Dep))
    (s : Scope) : Scope × List Event :=
  if cond then
    ({ binding := some ⟨tgt, ev, s.nextRef, snap⟩, nextRef := s.nextRef + 1 },
      [Event.factoryCall s.nextRef, Event.register tgt ev s.nextRef])
  else
    ({ binding := none, nextRef := s.nextRef }, [])

/-- Modelled from the spec: `evaluate`.  No prior Binding: establish.  Prior
Binding with an element-wise equal stored snapshot: take no action.  Prior
Binding with a differing (or omitted) snapshot: deregister the prior Binding's
handler reference first, then establish the new Binding. -/
def evaluate (tgt ev : String) (cond : Bool) (snap : Option (List Dep))
    (s : Scope) : Scope × List Event :=
  match s.binding with
  | none => establish tgt ev cond snap s
  | some b =>
      if snapEq b.snapshot snap then (s, [])
      else
        let p := establish tgt ev cond snap { binding := none, nextRef := s.nextRef }
        (p.1, Event.deregister b.target b.eventName b.handlerRef :: p.2)

/-- Modelled from the spec: `dispose` deregisters the owner's active Binding,
if any, and clears stored state; with no Binding it does nothing (and raises
no error — the function is total). -/
def dispose (s : Scope) : Scope × List Event :=
  match s.binding with
  | none => (s, [])
  | some b =>
      ({ binding := none, nextRef := s.nextRef },
        [Event.deregister b.target b.eventName b.handlerRef])

/-- One call of the owner's lifecycle on its Scope. -/
inductive Op where
  | evaluate (target eventName : String) (cond : Bool) (snap : Option (List Dep))
  | dispose
deriving DecidableEq

def Op.isEvaluate : Op → Bool
  | .evaluate _ _ _ _ => true
  | .dispose => false

def stepOp (s : Scope) : Op → Scope × List Event
  | .evaluate t e c snap => evaluate t e c snap s
  | .dispose => dispose s

/-- Run a sequence of lifecycle calls, accumulating the emitted collaborator
calls in order. -/
def run (s : Scope) : List Op → Scope × List Event
  | [] => (s, [])
  | op :: ops =>
      let p := stepOp s op
      let q := run p.1 ops
      (q.1, p.2 ++ q.2)

/-- The collaborator-call trace of a whole lifecycle, from a fresh owner. -/
def trace (ops : List Op) : List Event := (run scope0 ops).2

/-- The Scope state after a whole lifecycle, from a fresh owner. -/
def finalScope (ops : List Op) : Scope := (run scope0 ops).1

/-- The target's registration list for one `(target, eventName)` pair, as
mutated by one collaborator call: `register` appends the reference,
`deregister` removes one occurrence (removing an absent reference is a silent
no-op, as for `removeEventListener`), calls naming other pairs or the factory
leave the list unchanged. -/
def applyEvent (tgt ev : String) (l : List Ref) : Event → List Ref
  | .factoryCall _ => l
  | .register t e r => if t = tgt ∧ e = ev then l ++ [r] else l
  | .deregister t e r => if t = tgt ∧ e = ev then l.erase r else l

/-- The target's registration list for `(tgt, ev)` after a list of
collaborator calls, starting from `l`. -/
def regList (tgt ev : String) (l : List Ref) (evs : List Event) : List Ref :=
  evs.foldl (applyEvent tgt ev) l

/-- The registration list the Scope's state accounts for on `(tgt, ev)`:
the active Binding's reference when it names this pair, nothing otherwise. -/
def bindingRegs (tgt ev : String) (s : Scope) : List Ref :=
  match s.binding with
  | some b => if b.target = tgt ∧ b.eventName = ev then [b.handlerRef] else []
  | none => []

/-- Scope well-formedness: any stored handler reference was drawn from the
fresh supply, hence is below `nextRef`. -/
def wfScope (s : Scope) : Bool :=
  match s.binding with
  | some b => decide (b.handlerRef < s.nextRef)
  | none => true

/-! ### Helper lemmas -/

theorem regList_append (tgt ev : String) (l : List Ref) (e1 e2 : List Event) :
    regList tgt ev l (e1 ++ e2) = regList tgt ev (regList tgt ev l e1) e2 :=
  List.foldl_append _ _ _ _

theorem bindingRegs_length (tgt ev : String) (s : Scope) :
    (bindingRegs tgt ev s).length ≤ 1 := by
  obtain ⟨ob, n⟩ := s
  cases ob with
  | none => simp [bindingRegs]
  | some b =>
      by_cases hm : b.target = tgt ∧ b.eventName = ev <;> simp [bindingRegs, hm]

theorem applyEvent_dereg_length (tgt ev : String) (l : List Ref) (T E : String)
    (r : Ref) :
    (applyEvent tgt ev l (Event.deregister T E r)).length ≤ l.length := by
  by_cases hm : T = tgt ∧ E = ev
  · simpa [applyEvent, hm] using (List.erase_sublist r l).length_le
  · simp [applyEvent, hm]

theorem applyEvent_dereg_bindingRegs (tgt ev : String) (b : Binding) (n : Ref) :
    applyEvent tgt ev (bindingRegs tgt ev ⟨some b, n⟩)
      (Event.deregister b.target b.eventName b.handlerRef) = [] := by
  by_cases hm : b.target = tgt ∧ b.eventName = ev <;>
    simp [applyEvent, bindingRegs, hm]

theorem establish_regList (tgt ev T E : String) (c : Bool)
    (snap : Option (List Dep)) (s : Scope) :
    regList tgt ev [] (establish T E c snap s).2
      = bindingRegs tgt ev (establish T E c snap s).1 := by
  by_cases hc : c <;> by_cases hm : T = tgt ∧ E = ev <;>
    simp [establish, regList, applyEvent, bindingRegs, hc, hm]

theorem stepOp_regList (s : Scope) (op : Op) (tgt ev : String) :
    regList tgt ev (bindingRegs tgt ev s) (stepOp s op).2
      = bindingRegs tgt ev (stepOp s op).1 := by
  obtain ⟨ob, n⟩ := s
  cases op with
  | dispose =>
      cases ob with
      | none => simp [stepOp, dispose, regList, bindingRegs]
      | some b =>
          have h1 := applyEvent_dereg_bindingRegs tgt ev b n
          simp only [stepOp, dispose, regList, List.foldl_cons, List.foldl_nil, h1]
          simp [bindingRegs]
  | evaluate T E c snap =>
      cases ob with
      | none =>
          have h2 := establish_regList tgt ev T E c snap ⟨none, n⟩
          simpa [stepOp, evaluate, bindingRegs, regList] using h2
      | some b =>
          by_cases hs : snapEq b.snapshot snap
          · simp [stepOp, evaluate, hs, regList]
          · have h1 := applyEvent_dereg_bindingRegs tgt ev b n
            have h2 := establish_regList tgt ev T E c snap ⟨none, n⟩
            simpa [stepOp, evaluate, hs, regList, h1] using h2

theorem run_regList (ops : List Op) (s : Scope) (tgt ev : String) :
    regList tgt ev (bindingRegs tgt ev s) (run s ops).2
      = bindingRegs tgt ev (run s ops).1 := by
  induction ops generalizing s with
  | nil => simp [run, regList]
  | cons op ops ih =>
      simp only [run]
      rw [regList_append, stepOp_regList]
      exact ih (stepOp s op).1

theorem prefix_nil_cases {α : Type} {t : List α} (h : t <+: ([] : List α)) :
    t = [] :=
  List.prefix_nil.mp h

theorem prefix_append_cases {α : Type} {t l₁ l₂ : List α}
    (h : t <+: l₁ ++ l₂) :
    t <+: l₁ ∨ ∃ t₂, t = l₁ ++ t₂ ∧ t₂ <+: l₂ := by
  induction l₁ generalizing t with
  | nil => exact .inr ⟨t, rfl, by simpa using h⟩
  | cons a l₁ ih =>
      cases t with
      | nil =>
          exact .inl ( List.nil_prefix)
      | cons x t' =>
          rw [List.cons_append, List.cons_prefix_cons] at h
          obtain ⟨rfl, h'⟩ := h
          rcases ih h' with h1 | ⟨t₂, rfl, h₂⟩
          · exact .inl (List.cons_prefix_cons.mpr ⟨rfl, h1⟩)
          · exact .inr ⟨t₂, rfl, h₂⟩

theorem prefix_one_cases {α : Type} {a : α} {t : List α} (h : t <+: [a]) :
    t = [] ∨ t = [a] := by
  cases t with
  | nil => exact .inl rfl
  | cons x t' =>
      rw [List.cons_prefix_cons] at h
      obtain ⟨rfl, h'⟩ := h
      rw [prefix_nil_cases h']
      exact .inr rfl

theorem prefix_two_cases {α : Type} {a b : α} {t : List α} (h : t <+: [a, b]) :
    t = [] ∨ t = [a] ∨ t = [a, b] := by
  cases t with
  | nil => exact .inl rfl
  | cons x t' =>
      rw [List.cons_prefix_cons] at h
      obtain ⟨rfl, h'⟩ := h
      rcases prefix_one_cases h' with rfl | rfl
      · exact .inr (.inl rfl)
      · exact .inr (.inr rfl)

theorem prefix_three_cases {α : Type} {a b c : α} {t : List α}
    (h : t <+: [a, b, c]) :
    t = [] ∨ t = [a] ∨ t = [a, b] ∨ t = [a, b, c] := by
  cases t with
  | nil => exact .inl rfl
  | cons x t' =>
      rw [List.cons_prefix_cons] at h
      obtain ⟨rfl, h'⟩ := h
      rcases prefix_two_cases h' with rfl | rfl | rfl
      · exact .inr (.inl rfl)
      · exact .inr (.inr (.inl rfl))
      · exact .inr (.inr (.inr rfl))

theorem stepOp_prefix_le_one (s : Scope) (op : Op) (tgt ev : String)
    (t : List Event) (ht : t <+: (stepOp s op).2) :
    (regList tgt ev (bindingRegs tgt ev s) t).length ≤ 1 := by
  obtain ⟨ob, n⟩ := s
  cases op with
  | dispose =>
      cases ob with
      | none =>
          rw [show (stepOp ⟨none, n⟩ Op.dispose).2 = [] from rfl] at ht
          rw [prefix_nil_cases ht]
          simpa [regList] using bindingRegs_length tgt ev ⟨none, n⟩
      | some b =>
          rw [show (stepOp ⟨some b, n⟩ Op.dispose).2
              = [Event.deregister b.target b.eventName b.handlerRef] from rfl] at ht
          rcases prefix_one_cases ht with rfl | rfl
          · simpa [regList] using bindingRegs_length tgt ev ⟨some b, n⟩
          · simp [regList, applyEvent_dereg_bindingRegs tgt ev b n]
  | evaluate T E c snap =>
      cases ob with
      | none =>
          by_cases hc : c
          · rw [show (stepOp ⟨none, n⟩ (Op.evaluate T E c snap)).2
                = [Event.factoryCall n, Event.register T E n] from by
                  simp [stepOp, evaluate, establish, hc]] at ht
            rcases prefix_two_cases ht with rfl | rfl | rfl
            · simp [regList, bindingRegs]
            · simp [regList, applyEvent, bindingRegs]
            · by_cases hm : T = tgt ∧ E = ev <;>
                simp [regList, applyEvent, bindingRegs, hm]
          · rw [show (stepOp ⟨none, n⟩ (Op.evaluate T E c snap)).2 = [] from by
                  simp [stepOp, evaluate, establish, hc]] at ht
            rw [prefix_nil_cases ht]
            simp [regList, bindingRegs]
      | some b =>
          by_cases hs : snapEq b.snapshot snap
          · rw [show (stepOp ⟨some b, n⟩ (Op.evaluate T E c snap)).2 = [] from by
                  simp [stepOp, evaluate, hs]] at ht
            rw [prefix_nil_cases ht]
            simpa [regList] using bindingRegs_length tgt ev ⟨some b, n⟩
          · by_cases hc : c
            · rw [show (stepOp ⟨some b, n⟩ (Op.evaluate T E c snap)).2
                  = [Event.deregister b.target b.eventName b.handlerRef,
                      Event.factoryCall n, Event.register T E n] from by
                    simp [stepOp, evaluate, establish, hs, hc]] at ht
              rcases prefix_three_cases ht with rfl | rfl | rfl | rfl
              · simpa [regList] using bindingRegs_length tgt ev ⟨some b, n⟩
              · simp [regList, applyEvent_dereg_bindingRegs tgt ev b n]
              · simp only [regList, List.foldl_cons,
                  applyEvent_dereg_bindingRegs tgt ev b n, List.foldl_nil]
                simp [applyEvent]
              · simp only [regList, List.foldl_cons,
                  applyEvent_dereg_bindingRegs tgt ev b n, List.foldl_nil]
                by_cases hm : T = tgt ∧ E = ev <;> simp [applyEvent, hm]
            · rw [show (stepOp ⟨some b, n⟩ (Op.evaluate T E c snap)).2
                  = [Event.deregister b.target b.eventName b.handlerRef] from by
                    simp [stepOp, evaluate, establish, hs, hc]] at ht
              rcases prefix_one_cases ht with rfl | rfl
              · simpa [regList] using bindingRegs_length tgt ev ⟨some b, n⟩
              · simp [regList, applyEvent_dereg_bindingRegs tgt ev b n]

theorem run_prefix_le_one (ops : List Op) (s : Scope) (tgt ev : String)
    (t : List Event) (ht : t <+: (run s ops).2) :
    (regList tgt ev (bindingRegs tgt ev s) t).length ≤ 1 := by
  induction ops generalizing s t with
  | nil =>
      have ht' : t = [] := prefix_nil_cases (by simpa [run] using ht)
      subst ht'
      simpa [regList] using bindingRegs_length tgt ev s
  | cons op ops ih =>
      simp only [run] at ht
      rcases prefix_append_cases ht with h | ⟨t₂, rfl, h₂⟩
      · exact stepOp_prefix_le_one s op tgt ev t h
      · rw [regList_append, stepOp_regList]
        exact ih (stepOp s op).1 t₂ h₂

theorem stepOp_factory_count (s : Scope) (op : Op) :
    (stepOp s op).2.countP Event.isFactoryCall
      = (stepOp s op).2.countP Event.isRegister := by
  obtain ⟨ob, n⟩ := s
  cases op with
  | dispose =>
      cases ob <;>
        simp [stepOp, dispose, Event.isFactoryCall, Event.isRegister,
          Event.isDeregister]
  | evaluate T E c snap =>
      cases ob with
      | none =>
          by_cases hc : c <;>
            simp [stepOp, evaluate, establish, hc, Event.isFactoryCall,
              Event.isRegister]
      | some b =>
          by_cases hs : snapEq b.snapshot snap
          · simp [stepOp, evaluate, hs]
          · by_cases hc : c <;>
              simp [stepOp, evaluate, establish, hs, hc, Event.isFactoryCall,
                Event.isRegister, Event.isDeregister]

theorem run_factory_count (ops : List Op) (s : Scope) :
    (run s ops).2.countP Event.isFactoryCall
      = (run s ops).2.countP Event.isRegister := by
  induction ops generalizing s with
  | nil => simp [run]
  | cons op ops ih =>
      simp only [run, List.countP_append]
      rw [stepOp_factory_count, ih]

/-- Every reference the Scope still holds has been registered in the trace. -/
def regSeen (s : Scope) (tr : List Event) : Prop :=
  ∀ b : Binding, s.binding = some b →
    Event.register b.target b.eventName b.handlerRef ∈ tr

/-- Every deregister call in the trace presents a reference (with its
target/event pair) that some register call in the trace presented. -/
def deregOk (tr : List Event) : Prop :=
  ∀ (T E : String) (r : Ref), Event.deregister T E r ∈ tr →
    Event.register T E r ∈ tr

theorem stepOp_mem (s : Scope) (op : Op) (tr : List Event)
    (h1 : regSeen s tr) (h2 : deregOk tr) :
    regSeen (stepOp s op).1 (tr ++ (stepOp s op).2)
      ∧ deregOk (tr ++ (stepOp s op).2) := by
  obtain ⟨ob, n⟩ := s
  cases op with
  | dispose =>
      cases ob with
      | none =>
          constructor
          · intro b' hb'
            exact List.mem_append_left _ (h1 b' hb')
          · intro T E r hmem
            rw [show (stepOp ⟨none, n⟩ Op.dispose).2 = [] from rfl,
              List.append_nil] at hmem
            exact List.mem_append_left _ (h2 T E r hmem)
      | some b =>
          simp only [stepOp, dispose]
          constructor
          · intro b' hb'
            simp at hb'
          · intro T E r hmem
            rcases List.mem_append.mp hmem with hin | hin
            · exact List.mem_append_left _ (h2 T E r hin)
            · simp only [List.mem_singleton, Event.deregister.injEq] at hin
              obtain ⟨rfl, rfl, rfl⟩ := hin
              exact List.mem_append_left _ (h1 b rfl)
  | evaluate T E c snap =>
      cases ob with
      | none =>
          simp only [stepOp, evaluate]
          by_cases hc : c
          · simp only [establish, hc, if_true]
            constructor
            · intro b' hb'
              simp only [Option.some.injEq] at hb'
              subst hb'
              refine List.mem_append_right _ ?_
              simp
            · intro T' E' r hmem
              rcases List.mem_append.mp hmem with hin | hin
              · exact List.mem_append_left _ (h2 T' E' r hin)
              · simp at hin
          · simp only [establish, hc, if_false, Bool.false_eq_true,
              List.append_nil]
            constructor
            · intro b' hb'
              simp at hb'
            · intro T' E' r hmem
              exact h2 T' E' r hmem
      | some b =>
          by_cases hs : snapEq b.snapshot snap
          · simp only [stepOp, evaluate, hs, if_true, List.append_nil]
            exact ⟨h1, h2⟩
          · simp only [stepOp, evaluate, hs, if_false, Bool.false_eq_true]
            by_cases hc : c
            · simp only [establish, hc, if_true]
              constructor
              · intro b' hb'
                simp only [Option.some.injEq] at hb'
                subst hb'
                refine List.mem_append_right _ ?_
                simp
              · intro T' E' r hmem
                rcases List.mem_append.mp hmem with hin | hin
                · exact List.mem_append_left _ (h2 T' E' r hin)
                · simp only [List.mem_cons, Event.deregister.injEq] at hin
                  rcases hin with ⟨rfl, rfl, rfl⟩ | hin
                  · exact List.mem_append_left _ (h1 b rfl)
                  · simp at hin
            · simp only [establish, hc, if_false, Bool.false_eq_true]
              constructor
              · intro b' hb'
                simp at hb'
              · intro T' E' r hmem
                rcases List.mem_append.mp hmem with hin | hin
                · exact List.mem_append_left _ (h2 T' E' r hin)
                · simp only [List.mem_cons, Event.deregister.injEq,
                    List.not_mem_nil, or_false] at hin
                  obtain ⟨rfl, rfl, rfl⟩ := hin
                  exact List.mem_append_left _ (h1 b rfl)

theorem run_mem (ops : List Op) (s : Scope) (tr : List Event)
    (h1 : regSeen s tr) (h2 : deregOk tr) :
    regSeen (run s ops).1 (tr ++ (run s ops).2)
      ∧ deregOk (tr ++ (run s ops).2) := by
  induction ops generalizing s tr with
  | nil => simpa [run] using ⟨h1, h2⟩
  | cons op ops ih =>
      have hstep := stepOp_mem s op tr h1 h2
      have hrest := ih (stepOp s op).1 (tr ++ (stepOp s op).2) hstep.1 hstep.2
      simpa [run, List.append_assoc] using hrest

theorem run_append (s : Scope) (l₁ l₂ : List Op) :
    run s (l₁ ++ l₂)
      = ((run (run s l₁).1 l₂).1, (run s l₁).2 ++ (run (run s l₁).1 l₂).2) := by
  induction l₁ generalizing s with
  | nil => simp [run]
  | cons op ops ih => simp [run, ih, List.append_assoc]

theorem dispose_binding_none (s : Scope) : (dispose s).1.binding = none := by
  obtain ⟨ob, n⟩ := s
  cases ob <;> simp [dispose]

/-! ### The no-cleanup variant (`src/unnamed/part_001`)

There, `Child`'s mount effect is

  useEffect(() => \x7b
    window.addEventListener("click", () => console.log("click"));
  \x7d, []);

with an empty dependency array and no cleanup function: the effect body runs
exactly once per mount of `Child`, registering a brand-new anonymous handler
reference on `window`, and nothing ever removes it — unmounting runs no
cleanup.  `mountStep` embeds exactly this: a mount appends a fresh reference
to `window`'s click-registration list, an unmount does nothing. -/

structure WindowState where
  listeners : List Ref
  nextRef : Ref
deriving DecidableEq

def windowState0 : WindowState := { listeners := [], nextRef := 0 }

/-- One lifecycle transition of the `Child` component in the no-cleanup
variant. -/
inductive MountOp where
  | mount
  | unmount
deriving DecidableEq

def MountOp.isMount : MountOp → Bool
  | .mount => true
  | .unmount => false

def mountStep (s : WindowState) : MountOp → WindowState × List Event
  | .mount =>
      ({ listeners := s.listeners ++ [s.nextRef], nextRef := s.nextRef + 1 },
        [Event.register "window" "click" s.nextRef])
  | .unmount => (s, [])

def mountRun (s : WindowState) : List MountOp → WindowState × List Event
  | [] => (s, [])
  | op :: ops =>
      let p := mountStep s op
      let q := mountRun p.1 ops
      (q.1, p.2 ++ q.2)

theorem mountRun_length (ops : List MountOp) (s : WindowState) :
    (mountRun s ops).1.listeners.length
      = s.listeners.length + ops.countP MountOp.isMount := by
  induction ops generalizing s with
  | nil => simp [mountRun]
  | cons op ops ih =>
      cases op with
      | mount =>
          simp [mountRun, mountStep, ih, List.countP_cons, MountOp.isMount]
          omega
      | unmount =>
          simp [mountRun, mountStep, ih, List.countP_cons, MountOp.isMount]

theorem mountRun_no_dereg (ops : List MountOp) (s : WindowState) :
    ∀ e ∈ (mountRun s ops).2, Event.isDeregister e = false := by
  induction ops generalizing s with
  | nil => simp [mountRun]
  | cons op ops ih =>
      cases op with
      | mount =>
          intro e he
          simp only [mountRun, mountStep, List.mem_append] at he
          rcases he with he | he
          · simp only [List.mem_singleton] at he
            subst he
            rfl
          · exact ih _ e he
      | unmount =>
          intro e he
          simp only [mountRun, mountStep, List.nil_append] at he
          exact ih _ e he

theorem mountRun_fresh (ops : List MountOp) (s : WindowState)
    (hbd : ∀ r ∈ s.listeners, r < s.nextRef) (hnd : s.listeners.Nodup) :
    (∀ r ∈ (mountRun s ops).1.listeners, r < (mountRun s ops).1.nextRef)
      ∧ (mountRun s ops).1.listeners.Nodup := by
  induction ops generalizing s with
  | nil => exact ⟨hbd, hnd⟩
  | cons op ops ih =>
      cases op with
      | mount =>
          refine ih _ ?_ ?_
          · intro r hr
            simp only [mountStep, List.mem_append, List.mem_singleton] at hr
            rcases hr with hr | rfl
            · exact Nat.lt_succ_of_lt (hbd r hr)
            · exact Nat.lt_succ_self _
          · simp only [mountStep]
            rw [List.nodup_append]
            refine ⟨hnd, List.nodup_singleton _, ?_⟩
            intro r hr hr'
            simp only [List.mem_singleton] at hr'
            subst hr'
            exact absurd (hbd _ hr) (Nat.lt_irrefl _)
      | unmount => exact ih _ hbd hnd

theorem mountRun_mono (ops ops' : List MountOp) (h : ops' <+: ops) :
    (mountRun windowState0 ops').1.listeners.length
      ≤ (mountRun windowState0 ops).1.listeners.length := by
  rw [mountRun_length, mountRun_length]
  have := (h.sublist).countP_le MountOp.isMount
  omega

/-! ### The claims -/

/-- Claim C1: for every owner and every `(target, eventName)` pair, at every
point of any sequence of `evaluate` and `dispose` calls — including the points
inside a call, after any prefix of the emitted collaborator calls — at most
one handler reference attributable to that owner is registered against the
pair; the Scope never holds two simultaneous registrations. -/
theorem evaluate_dispose_at_most_one_registration (ops : List Op)
    (tgt ev : String) (t : List Event) (ht : t <+: trace ops) :
    (regList tgt ev [] t).length ≤ 1 := by
  have h := run_prefix_le_one ops scope0 tgt ev t ht
  simpa [bindingRegs, scope0] using h

theorem evaluate_dispose_at_most_one_registration_witness :
    ([Event.factoryCall 0, Event.register "W" "click" 0]
        <+: trace [Op.evaluate "W" "click" true (some []), Op.dispose])
    ∧ (regList "W" "click" []
        [Event.factoryCall 0, Event.register "W" "click" 0]).length ≤ 1 :=
  ⟨by decide,
    evaluate_dispose_at_most_one_registration
      [Op.evaluate "W" "click" true (some []), Op.dispose] "W" "click"
      [Event.factoryCall 0, Event.register "W" "click" 0] (by decide)⟩

/-- Claim C2: for every owner, after any finite sequence of `evaluate` calls
(with arbitrary targets, conditions and snapshots) followed by a `dispose`
call, the target's registration list contains no handler reference
attributable to that owner. -/
theorem dispose_after_evaluates_clears_registrations (ops : List Op)
    (tgt ev : String) (_hev : ∀ op ∈ ops, op.isEvaluate = true) :
    regList tgt ev [] (trace (ops ++ [Op.dispose])) = [] := by
  have h := run_regList (ops ++ [Op.dispose]) scope0 tgt ev
  have hnone : (run scope0 (ops ++ [Op.dispose])).1.binding = none := by
    rw [run_append]
    simp only [run, stepOp]
    exact dispose_binding_none _
  have hb : bindingRegs tgt ev (run scope0 (ops ++ [Op.dispose])).1 = [] := by
    simp [bindingRegs, hnone]
  rw [trace]
  rw [show bindingRegs tgt ev scope0 = [] from rfl] at h
  rw [h, hb]

theorem dispose_after_evaluates_clears_registrations_witness :
    (∀ op ∈ [Op.evaluate "W" "click" true (some [true]),
        Op.evaluate "W" "click" true (some [false])], op.isEvaluate = true)
    ∧ regList "W" "click" []
        (trace ([Op.evaluate "W" "click" true (some [true]),
          Op.evaluate "W" "click" true (some [false])] ++ [Op.dispose])) = [] :=
  ⟨by decide,
    dispose_after_evaluates_clears_registrations
      [Op.evaluate "W" "click" true (some [true]),
        Op.evaluate "W" "click" true (some [false])] "W" "click" (by decide)⟩

/-- Claim C3: an `evaluate` call whose dependency snapshot is element-wise
equal to the stored snapshot takes no action — the Scope state is unchanged
and no collaborator call (register, deregister or factory invocation) is
emitted; in particular, three `evaluate` calls with the same empty snapshot
produce exactly one register call total. -/
theorem evaluate_equal_snapshot_noop :
    (∀ (s : Scope) (b : Binding) (d : List Dep) (tgt ev : String) (c : Bool),
        s.binding = some b → b.snapshot = some d →
        evaluate tgt ev c (some d) s = (s, []))
    ∧ (trace [Op.evaluate "W" "click" true (some []),
        Op.evaluate "W" "click" true (some []),
        Op.evaluate "W" "click" true (some [])]).countP Event.isRegister = 1
    ∧ (trace [Op.evaluate "W" "click" true (some []),
        Op.evaluate "W" "click" true (some []),
        Op.evaluate "W" "click" true (some [])]).countP Event.isDeregister = 0 := by
  refine ⟨?_, by decide, by decide⟩
  intro s b d tgt ev c hb hsnap
  obtain ⟨ob, n⟩ := s
  have hob : ob = some b := hb
  subst hob
  simp [evaluate, snapEq, hsnap]

theorem evaluate_equal_snapshot_noop_witness :
    ((⟨some ⟨"W", "click", 0, some [true]⟩, 1⟩ : Scope).binding
        = some ⟨"W", "click", 0, some [true]⟩)
    ∧ (Binding.snapshot ⟨"W", "click", 0, some [true]⟩ = some [true])
    ∧ evaluate "W" "click" true (some [true])
        ⟨some ⟨"W", "click", 0, some [true]⟩, 1⟩
      = (⟨some ⟨"W", "click", 0, some [true]⟩, 1⟩, []) :=
  ⟨rfl, rfl,
    evaluate_equal_snapshot_noop.1 ⟨some ⟨"W", "click", 0, some [true]⟩, 1⟩
      ⟨"W", "click", 0, some [true]⟩ [true] "W" "click" true rfl rfl⟩

/-- Claim C4: an `evaluate` call with a changed snapshot emits exactly one
deregister of the previously registered reference strictly before exactly one
register of the new reference, and at no point in between are both references
registered simultaneously (the middle window has neither registered). -/
theorem evaluate_changed_snapshot_dereg_before_reg (s : Scope) (b : Binding)
    (tgt ev : String) (snap : Option (List Dep))
    (hb : s.binding = some b) (hw : wfScope s = true)
    (htg : b.target = tgt) (hen : b.eventName = ev)
    (hs : snapEq b.snapshot snap = false) :
    (evaluate tgt ev true snap s).2
      = [Event.deregister tgt ev b.handlerRef, Event.factoryCall s.nextRef,
          Event.register tgt ev s.nextRef]
    ∧ (evaluate tgt ev true snap s).2.countP Event.isDeregister = 1
    ∧ (evaluate tgt ev true snap s).2.countP Event.isRegister = 1
    ∧ ∀ t, t <+: (evaluate tgt ev true snap s).2 →
        ¬(b.handlerRef ∈ regList tgt ev [b.handlerRef] t
          ∧ s.nextRef ∈ regList tgt ev [b.handlerRef] t) := by
  subst htg
  subst hen
  obtain ⟨ob, n⟩ := s
  have hob : ob = some b := hb
  subst hob
  have hlt : b.handlerRef < n := by simpa [wfScope] using hw
  have hne : b.handlerRef ≠ n := Nat.ne_of_lt hlt
  have hev2 : (evaluate b.target b.eventName true snap ⟨some b, n⟩).2
      = [Event.deregister b.target b.eventName b.handlerRef,
          Event.factoryCall n, Event.register b.target b.eventName n] := by
    simp [evaluate, establish, hs]
  refine ⟨hev2, ?_, ?_, ?_⟩
  · rw [hev2]
    simp [Event.isDeregister, Event.isRegister, Event.isFactoryCall]
  · rw [hev2]
    simp [Event.isDeregister, Event.isRegister, Event.isFactoryCall]
  · intro t ht
    rw [hev2] at ht
    rcases prefix_three_cases ht with rfl | rfl | rfl | rfl
    · rintro ⟨h1, h2⟩
      simp only [regList, List.foldl_nil, List.mem_singleton] at h2
      exact hne h2.symm
    · rintro ⟨h1, h2⟩
      simp [regList, applyEvent] at h1
    · rintro ⟨h1, h2⟩
      simp [regList, applyEvent] at h1
    · rintro ⟨h1, h2⟩
      simp only [regList, List.foldl_cons, List.foldl_nil] at h1
      simp [applyEvent] at h1
      exact hne h1

theorem evaluate_changed_snapshot_dereg_before_reg_witness :
    ((⟨some ⟨"W", "click", 0, some [true]⟩, 1⟩ : Scope).binding
        = some ⟨"W", "click", 0, some [true]⟩)
    ∧ wfScope ⟨some ⟨"W", "click", 0, some [true]⟩, 1⟩ = true
    ∧ snapEq (some [true]) (some [false]) = false
    ∧ (evaluate "W" "click" true (some [false])
        ⟨some ⟨"W", "click", 0, some [true]⟩, 1⟩).2
      = [Event.deregister "W" "click" 0, Event.factoryCall 1,
          Event.register "W" "click" 1] :=
  ⟨rfl, by decide, by decide,
    (evaluate_changed_snapshot_dereg_before_reg
      ⟨some ⟨"W", "click", 0, some [true]⟩, 1⟩ ⟨"W", "click", 0, some [true]⟩
      "W" "click" (some [false]) rfl (by decide) rfl rfl (by decide)).1⟩

/-- Claim C5: `dispose` is idempotent — with an active Binding, the first
`dispose` emits exactly one deregister call, and a second `dispose` emits no
register or deregister call and leaves the Scope state unchanged. -/
theorem dispose_idempotent (s : Scope) (b : Binding)
    (hb : s.binding = some b) :
    (dispose s).2 = [Event.deregister b.target b.eventName b.handlerRef]
    ∧ dispose (dispose s).1 = ((dispose s).1, [])
    ∧ ((dispose s).2 ++ (dispose (dispose s).1).2).countP Event.isDeregister = 1
    ∧ ((dispose s).2 ++ (dispose (dispose s).1).2).countP Event.isRegister = 0 := by
  obtain ⟨ob, n⟩ := s
  have hob : ob = some b := hb
  subst hob
  refine ⟨rfl, rfl, ?_, ?_⟩ <;>
    simp [dispose, Event.isDeregister, Event.isRegister]

theorem dispose_idempotent_witness :
    ((⟨some ⟨"W", "click", 0, some []⟩, 1⟩ : Scope).binding
        = some ⟨"W", "click", 0, some []⟩)
    ∧ (dispose ⟨some ⟨"W", "click", 0, some []⟩, 1⟩).2
        = [Event.deregister "W" "click" 0] :=
  ⟨rfl,
    (dispose_idempotent ⟨some ⟨"W", "click", 0, some []⟩, 1⟩
      ⟨"W", "click", 0, some []⟩ rfl).1⟩

/-- Claim C6: across any lifecycle, `handlerFactory` is invoked exactly once
per Binding establishment (the factory-call count equals the register-call
count, not the `evaluate`-call count), and every reference presented to
`deregister` — with its target/event pair — is the identical reference that
was presented to `register` for that Binding. -/
theorem factory_once_and_reference_identity (ops : List Op) :
    (trace ops).countP Event.isFactoryCall
        = (trace ops).countP Event.isRegister
    ∧ ∀ (T E : String) (r : Ref),
        Event.deregister T E r ∈ trace ops →
          Event.register T E r ∈ trace ops := by
  constructor
  · exact run_factory_count ops scope0
  · have h := run_mem ops scope0 []
      (by intro b hb; simp [scope0] at hb)
      (by intro T E r hmem; simp at hmem)
    intro T E r hm
    have h2 := h.2 T E r (by simpa using hm)
    simpa using h2

theorem factory_once_and_reference_identity_witness :
    (Event.deregister "W" "click" 0
        ∈ trace [Op.evaluate "W" "click" true (some []), Op.dispose])
    ∧ Event.register "W" "click" 0
        ∈ trace [Op.evaluate "W" "click" true (some []), Op.dispose] :=
  ⟨by decide,
    (factory_once_and_reference_identity
      [Op.evaluate "W" "click" true (some []), Op.dispose]).2 "W" "click" 0
      (by decide)⟩

/-- Claim C7: with the dependency snapshot omitted (`none`), every `evaluate`
call re-registers, deregistering the prior Binding first: three such calls
emit exactly three registers and exactly two deregisters, the first call
registering only, and each deregister preceding the corresponding
register, as the explicit trace shows. -/
theorem omitted_snapshot_reregisters_every_call (tgt ev : String) :
    trace [Op.evaluate tgt ev true none, Op.evaluate tgt ev true none,
        Op.evaluate tgt ev true none]
      = [Event.factoryCall 0, Event.register tgt ev 0,
          Event.deregister tgt ev 0, Event.factoryCall 1,
          Event.register tgt ev 1, Event.deregister tgt ev 1,
          Event.factoryCall 2, Event.register tgt ev 2]
    ∧ (trace [Op.evaluate tgt ev true none, Op.evaluate tgt ev true none,
        Op.evaluate tgt ev true none]).countP Event.isRegister = 3
    ∧ (trace [Op.evaluate tgt ev true none, Op.evaluate tgt ev true none,
        Op.evaluate tgt ev true none]).countP Event.isDeregister = 2 :=
  ⟨rfl, rfl, rfl⟩

/-- Claim C8: under conditional registration, an `evaluate` call whose
snapshot differs from the stored one and whose registration condition is
false still deregisters the prior Binding's handler — exactly one deregister
and zero registers — and leaves the owner with no active Binding. -/
theorem conditional_noop_still_deregisters (s : Scope) (b : Binding)
    (tgt ev : String) (snap : Option (List Dep))
    (hb : s.binding = some b) (hs : snapEq b.snapshot snap = false) :
    evaluate tgt ev false snap s
      = (⟨none, s.nextRef⟩,
          [Event.deregister b.target b.eventName b.handlerRef])
    ∧ (evaluate tgt ev false snap s).2.countP Event.isDeregister = 1
    ∧ (evaluate tgt ev false snap s).2.countP Event.isRegister = 0
    ∧ (evaluate tgt ev false snap s).1.binding = none := by
  obtain ⟨ob, n⟩ := s
  have hob : ob = some b := hb
  subst hob
  refine ⟨?_, ?_, ?_, ?_⟩ <;>
    simp [evaluate, establish, hs, Event.isDeregister, Event.isRegister]

theorem conditional_noop_still_deregisters_witness :
    ((⟨some ⟨"W", "click", 0, some [true]⟩, 1⟩ : Scope).binding
        = some ⟨"W", "click", 0, some [true]⟩)
    ∧ snapEq (some [true]) (some [false]) = false
    ∧ evaluate "W" "click" false (some [false])
        ⟨some ⟨"W", "click", 0, some [true]⟩, 1⟩
      = (⟨none, 1⟩, [Event.deregister "W" "click" 0]) :=
  ⟨rfl, by decide,
    (conditional_noop_still_deregisters
      ⟨some ⟨"W", "click", 0, some [true]⟩, 1⟩ ⟨"W", "click", 0, some [true]⟩
      "W" "click" (some [false]) rfl (by decide)).1⟩

/-- Claim C9: calling `dispose` on an owner with no active Binding performs
no register and no deregister call on the target and raises no error — the
call returns normally with the state unchanged and an empty trace. -/
theorem dispose_without_binding_noop (s : Scope) (hb : s.binding = none) :
    dispose s = (s, []) := by
  obtain ⟨ob, n⟩ := s
  have hob : ob = none := hb
  subst hob
  rfl

theorem dispose_without_binding_noop_witness :
    scope0.binding = none ∧ dispose scope0 = (scope0, []) :=
  ⟨rfl, dispose_without_binding_noop scope0 rfl⟩

/-- Claim C10: in the no-cleanup variant, no deregister call ever occurs,
each mount of `Child` registers a fresh handler reference on `window` (the
registered references are pairwise distinct), after any lifecycle with `n`
mounts exactly `n` handlers are simultaneously registered, and the
registration count never decreases along the lifecycle. -/
theorem no_cleanup_listeners_accumulate (ops : List MountOp) :
    (∀ e ∈ (mountRun windowState0 ops).2, Event.isDeregister e = false)
    ∧ (mountRun windowState0 ops).1.listeners.length
        = ops.countP MountOp.isMount
    ∧ (mountRun windowState0 ops).1.listeners.Nodup
    ∧ ∀ ops', ops' <+: ops →
        (mountRun windowState0 ops').1.listeners.length
          ≤ (mountRun windowState0 ops).1.listeners.length := by
  refine ⟨mountRun_no_dereg ops windowState0, ?_, ?_, ?_⟩
  · rw [mountRun_length]
    simp [windowState0]
  · exact (mountRun_fresh ops windowState0 (by intro r hr; simp [windowState0] at hr)
      (by simp [windowState0])).2
  · intro ops' h
    exact mountRun_mono ops ops' h

theorem no_cleanup_listeners_accumulate_witness :
    (Event.isDeregister (Event.register "window" "click" 0) = false)
    ∧ (mountRun windowState0
        [MountOp.mount, MountOp.unmount, MountOp.mount]).1.listeners.length = 2
    ∧ (mountRun windowState0 [MountOp.mount]).1.listeners.length
        ≤ (mountRun windowState0
            [MountOp.mount, MountOp.unmount, MountOp.mount]).1.listeners.length :=
  ⟨(no_cleanup_listeners_accumulate
      [MountOp.mount, MountOp.unmount, MountOp.mount]).1
      (Event.register "window" "click" 0) (by decide),
    (no_cleanup_listeners_accumulate
      [MountOp.mount, MountOp.unmount, MountOp.mount]).2.1,
    (no_cleanup_listeners_accumulate
      [MountOp.mount, MountOp.unmount, MountOp.mount]).2.2.2
      [MountOp.mount] (by decide)⟩

end SubScope
